import Mathlib

/-!
Verification of the Orange News RSS updater (`update_rss_feed.py`).

The file embeds the two core functions of the script — `extract_articles`
(HTML-tree walk producing article records) and `generate_rss_xml`
(RSS serializer) — as executable Lean definitions over an explicit
HTML-node tree, and proves the behavioural properties claimed of them.

Modelling conventions:
 * the parsed markup tree (BeautifulSoup's output) is a value of type
   `HNode`; the document handed to the extractor is the list of top-level
   nodes, and the BeautifulSoup document object itself is modelled as a
   virtual `"[document]"` element wrapping them (it takes part in the
   ancestor chain during the date search, exactly as `link.parent` does
   for a top-level anchor in the script);
 * the two "current time" reads (`datetime.now().strftime('%Y-%m-%d')`
   in the extractor and the RFC-822 `datetime.now(timezone.utc)` string
   in the renderer) are injected as explicit string parameters `today`
   and `now`, making both functions deterministic;
 * Python's `urljoin(BASE_URL, href)` is modelled by `urljoinBase`,
   reproducing CPython's `urllib.parse.urljoin` for the fixed base
   `"https://www.orangenews.hk"` (scheme "https", netloc
   "www.orangenews.hk", empty path): scheme detection, network-path
   references, query/fragment splitting, and dot-segment resolution;
 * `html.escape` (quote=True) is modelled character-wise, which is
   exactly equivalent to its sequential `str.replace` implementation;
 * `datetime.strptime(s, "%Y-%m-%d")` is modelled by `parseYMD`,
   reproducing the `_strptime` regex (4-digit year, 1-2 digit month and
   day) together with the calendar validation done by the `date`
   constructor; `strftime("%a, %d %b %Y %H:%M:%S %z")` at noon UTC is
   modelled by `formatNoon` with C-locale names and glibc's unpadded
   `%Y`.
-/

/-! ## Small string helpers (models of Python `str` methods) -/

/-- Model of Python `str.startswith`. -/
def strStartsWith (s p : String) : Bool := p.data.isPrefixOf s.data

/-- Characters stripped by Python `str.strip()` (`str.isspace`). -/
def pyIsSpace (c : Char) : Bool :=
  c = ' ' || ('\x09' ≤ c && c ≤ '\x0d') || ('\x1c' ≤ c && c ≤ '\x1f') ||
  c = '\x85' || c = '\xa0' || c = ' ' || (' ' ≤ c && c ≤ ' ') ||
  c = ' ' || c = ' ' || c = ' ' || c = ' ' || c = '　'

/-- Python `str.strip()` on the character list. -/
def pyStripL (l : List Char) : List Char :=
  ((l.dropWhile pyIsSpace).reverse.dropWhile pyIsSpace).reverse

/-- Model of Python `str.strip()`. -/
def pyStrip (s : String) : String := ⟨pyStripL s.data⟩

/-! ## The HTML tree -/

/-- A node of the parsed markup tree: an element with a tag name, an
attribute list and children, or a text node. -/
inductive HNode where
  | elem (tag : String) (attrs : List (String × String)) (children : List HNode)
  | text (s : String)

mutual

/-- BeautifulSoup's `.text` / `get_text()`: concatenation of all string
descendants in document order. -/
def HNode.getText : HNode → String
  | HNode.text s => s
  | HNode.elem _ _ cs => getTextList cs

def getTextList : List HNode → String
  | [] => ""
  | n :: ns => HNode.getText n ++ getTextList ns

end

/-- BeautifulSoup's `tag.get(key)`: first attribute with the given name. -/
def getAttr (n : HNode) (k : String) : Option String :=
  match n with
  | HNode.elem _ attrs _ => (attrs.find? (fun p => p.1 == k)).map (fun p => p.2)
  | HNode.text _ => none

mutual

/-- Model of `soup.find_all('a')`, enriched with each anchor's ancestor chain
(nearest ancestor first), which the script walks via `.parent`.
Pre-order traversal gives document order. -/
def collectLinks (ancs : List HNode) : HNode → List (HNode × List HNode)
  | HNode.text _ => []
  | HNode.elem tag attrs cs =>
      (if tag = "a" then [(HNode.elem tag attrs cs, ancs)] else []) ++
        collectLinksList (HNode.elem tag attrs cs :: ancs) cs

def collectLinksList (ancs : List HNode) : List HNode → List (HNode × List HNode)
  | [] => []
  | n :: ns => collectLinks ancs n ++ collectLinksList ancs ns

end

/-! ## Configuration constants of the script -/

def BASE_URL : String := "https://www.orangenews.hk"

/-- The hardcoded navigation labels skipped by the extractor. -/
def boilerplateLabels : List String := ["查看更多", "下載APP", "登入", "首頁"]

/-! ## Model of `urllib.parse.urljoin(BASE_URL, url)` -/

/-- Characters allowed in a URL scheme after the initial letter. -/
def isSchemeChar (c : Char) : Bool := c.isAlpha || c.isDigit || c = '+' || c = '-' || c = '.'

/-- The `urlparse` scheme detection: a leading ASCII letter followed by
scheme characters up to the first `':'`.  Returns the lowercased scheme
and the remainder after the colon. -/
def splitScheme (url : String) : Option (String × String) :=
  match url.data.findIdx? (fun c => c = ':') with
  | none => none
  | some i =>
    let before := url.data.take i
    let after := url.data.drop (i + 1)
    match before with
    | [] => none
    | c :: _ =>
      if c.isAlpha && before.all isSchemeChar then
        some (⟨before.map Char.toLower⟩, ⟨after⟩)
      else none

/-- Split at the first occurrence of a delimiter; the delimiter itself is
kept in neither part (`urlsplit` fragment/query splitting). -/
def splitAtChar (d : Char) (l : List Char) : List Char × List Char :=
  match l.findIdx? (fun c => c = d) with
  | none => (l, [])
  | some i => (l.take i, l.drop (i + 1))

/-- Python `'a/b/c'.split('/')` on character lists. -/
def splitSlash : List Char → List (List Char)
  | [] => [[]]
  | c :: t =>
    if c = '/' then [] :: splitSlash t
    else
      match splitSlash t with
      | [] => [[c]]
      | h :: r => (c :: h) :: r

/-- The `segments[1:-1] = filter(None, segments[1:-1])` step: drop empty interior
segments, keeping the first and last. -/
def filterInteriorAux : List (List Char) → List (List Char)
  | [] => []
  | [s] => [s]
  | s :: r => if s = [] then filterInteriorAux r else s :: filterInteriorAux r

def filterInterior : List (List Char) → List (List Char)
  | [] => []
  | h :: r => h :: filterInteriorAux r

/-- The `'..'` / `'.'` resolution loop of `urljoin` (accumulator holds the
resolved path reversed; `'..'` pops, `'.'` is skipped). -/
def resolveDotsAux : List (List Char) → List (List Char) → List (List Char)
  | acc, [] => acc.reverse
  | acc, s :: r =>
    if s = ['.', '.'] then resolveDotsAux acc.tail r
    else if s = ['.'] then resolveDotsAux acc r
    else resolveDotsAux (s :: acc) r

def resolveDots (segs : List (List Char)) : List (List Char) :=
  let r := resolveDotsAux [] segs
  if segs.getLastD [] = ['.'] || segs.getLastD [] = ['.', '.'] then r ++ [[]] else r

/-- Python `'/'.join(segments)`. -/
def joinSegs : List (List Char) → List Char
  | [] => []
  | [s] => s
  | s :: r => s ++ '/' :: joinSegs r

/-- Relative-path resolution against the base path `""` (the base URL has
an empty path), including `urlunsplit`'s leading-slash insertion and the
`or '/'` default. -/
def resolveRelPath (path : List Char) : List Char :=
  let segs :=
    if path.headD ' ' = '/' then splitSlash path else filterInterior (splitSlash path)
  let j := joinSegs (resolveDots segs)
  let j := if j = [] then ['/'] else j
  if j.headD ' ' = '/' then j else '/' :: j

def optQuery (q : List Char) : List Char := if q = [] then [] else '?' :: q

def optFragment (f : List Char) : List Char := if f = [] then [] else '#' :: f

/-- Resolution of a reference without a scheme (or with the base's own
scheme already stripped) against `"https://www.orangenews.hk"`.  A
network-path reference with a non-empty netloc keeps its own authority;
an *empty* netloc is falsy in `urljoin` and falls through to path
resolution against the base authority. -/
def resolveNoScheme (u : List Char) : String :=
  let (pre, frag) := splitAtChar '#' u
  let (rest, query) := splitAtChar '?' pre
  if rest.take 2 = ['/', '/'] ∧ (rest.drop 2).takeWhile (fun c => c ≠ '/') ≠ [] then
    ⟨("https:").data ++ rest ++ optQuery query ++ optFragment frag⟩
  else
    let path := if rest.take 2 = ['/', '/'] then rest.drop 2 else rest
    if path = [] then
      ⟨BASE_URL.data ++ optQuery query ++ optFragment frag⟩
    else
      ⟨BASE_URL.data ++ resolveRelPath path ++ optQuery query ++ optFragment frag⟩

/-- Model of `urljoin("https://www.orangenews.hk", url)`. -/
def urljoinBase (url : String) : String :=
  if url = "" then BASE_URL
  else
    match splitScheme url with
    | some (sch, rest) => if sch = "https" then resolveNoScheme rest.data else url
    | none => resolveNoScheme url.data

/-- A reference is absolute in the RFC sense when it carries a scheme. -/
def hasScheme (url : String) : Bool := (splitScheme url).isSome

/-! ## The date regex `re.search(r'(\d{4}-\d{2}-\d{2})', text)` -/

/-- Try the fixed-length pattern `\d{4}-\d{2}-\d{2}` at the head of the
list; on success return exactly the matched ten characters. -/
def matchDateAt : List Char → Option String
  | a :: b :: c :: d :: e :: f :: g :: h :: i :: j :: _ =>
    if a.isDigit && b.isDigit && c.isDigit && d.isDigit && e = '-' &&
       f.isDigit && g.isDigit && h = '-' && i.isDigit && j.isDigit then
      some ⟨[a, b, c, d, e, f, g, h, i, j]⟩
    else none
  | _ => none

/-- Model of `re.search`: leftmost match of the (fixed-length) date pattern. -/
def findDate : List Char → Option String
  | [] => none
  | c :: t =>
    match matchDateAt (c :: t) with
    | some d => some d
    | none => findDate t

/-- The ancestor walk of the script: starting from the immediate parent,
examine each ancestor's full text while `search_depth < 5`. -/
def dateSearch : List HNode → Nat → Option String
  | [], _ => none
  | p :: ps, depth =>
    if depth < 5 then
      match findDate (HNode.getText p).data with
      | some d => some d
      | none => dateSearch ps (depth + 1)
    else none

/-! ## The extractor -/

/-- The article record built by `extract_articles`. -/
structure Article where
  title : String
  link : String
  pubDate : String
  description : String
deriving DecidableEq

/-- The body of the `for link in soup.find_all('a')` loop, up to (but not
including) the duplicate check: all candidate filters, URL
normalization, the ancestor date search and the record construction.
`today` models `datetime.now().strftime('%Y-%m-%d')`. -/
def processLink (today : String) (cand : HNode × List HNode) : Option Article :=
  let txt := HNode.getText cand.1
  if txt = "" ∨ boilerplateLabels.contains (pyStrip txt) then none
  else
    let title := pyStrip txt
    if title.length < 5 then none
    else
      match getAttr cand.1 "href" with
      | none => none
      | some href0 =>
        if href0 = "" ∨ href0 = "#" then none
        else
          let href := if strStartsWith href0 "http" then href0 else urljoinBase href0
          let dateText := (dateSearch cand.2 0).getD today
          if title ≠ "" ∧ href ≠ "" ∧ dateText ≠ "" then
            some { title := title, link := href, pubDate := dateText, description := title }
          else none

/-- The accumulation loop of `extract_articles`, including the
first-occurrence-wins duplicate check against the accepted list. -/
def extractLoop (today : String) : List (HNode × List HNode) → List Article → List Article
  | [], acc => acc
  | c :: cs, acc =>
    match processLink today c with
    | none => extractLoop today cs acc
    | some a =>
      if acc.any (fun b => b.link == a.link) then extractLoop today cs acc
      else extractLoop today cs (acc ++ [a])

/-- All anchors of the document with their ancestor chains; the virtual
`"[document]"` element plays the role of the BeautifulSoup object in the
parent chain. -/
def allLinks (doc : List HNode) : List (HNode × List HNode) :=
  collectLinks [] (HNode.elem "[document]" [] doc)

/-- The function `extract_articles`, over the parsed tree, with the run date injected. -/
def extract_articles (today : String) (doc : List HNode) : List Article :=
  extractLoop today (allLinks doc) []

/-! ## Model of `html.escape` (quote=True) and its inverse -/

/-- The per-character replacement of `html.escape`; the sequential
`str.replace` calls of the implementation (ampersand first) are exactly
equivalent to this character-wise map. -/
def escChar (c : Char) : List Char :=
  if c = '&' then "&amp;".data
  else if c = '<' then "&lt;".data
  else if c = '>' then "&gt;".data
  else if c = '"' then "&quot;".data
  else if c = '\'' then "&#x27;".data
  else [c]

def htmlEscape (s : String) : String := ⟨s.data.flatMap escChar⟩

/-- Model of `html.unescape` restricted to the five character references
that `html.escape` emits (on `html.escape` output the two agree). -/
def unescChars : List Char → List Char
  | [] => []
  | c :: rest =>
    if c = '&' ∧ rest.take 4 = "amp;".data then '&' :: unescChars (rest.drop 4)
    else if c = '&' ∧ rest.take 3 = "lt;".data then '<' :: unescChars (rest.drop 3)
    else if c = '&' ∧ rest.take 3 = "gt;".data then '>' :: unescChars (rest.drop 3)
    else if c = '&' ∧ rest.take 5 = "quot;".data then '"' :: unescChars (rest.drop 5)
    else if c = '&' ∧ rest.take 5 = "#x27;".data then '\'' :: unescChars (rest.drop 5)
    else c :: unescChars rest
termination_by l => l.length
decreasing_by
  all_goals simp [List.length_drop]
  all_goals omega

def htmlUnescape (s : String) : String := ⟨unescChars s.data⟩

/-! ## Model of `strptime(s, "%Y-%m-%d")` and RFC-822 formatting -/

def digitVal (c : Char) : Nat := c.toNat - 48

/-- The `%m` directive of `_strptime`: `1[0-2]|0[1-9]|[1-9]`, greedy. -/
def parseMonth : List Char → Option (Nat × List Char)
  | c1 :: c2 :: rest =>
    if c1 = '1' && ('0' ≤ c2 && c2 ≤ '2') then some (10 + digitVal c2, rest)
    else if c1 = '0' && ('1' ≤ c2 && c2 ≤ '9') then some (digitVal c2, rest)
    else if '1' ≤ c1 && c1 ≤ '9' then some (digitVal c1, c2 :: rest)
    else none
  | [c1] => if '1' ≤ c1 && c1 ≤ '9' then some (digitVal c1, []) else none
  | [] => none

/-- The `%d` directive of `_strptime`: `3[01]|[12]\d|0[1-9]|[1-9]`, greedy. -/
def parseDay : List Char → Option (Nat × List Char)
  | c1 :: c2 :: rest =>
    if c1 = '3' && ('0' ≤ c2 && c2 ≤ '1') then some (30 + digitVal c2, rest)
    else if ('1' ≤ c1 && c1 ≤ '2') && c2.isDigit then some (10 * digitVal c1 + digitVal c2, rest)
    else if c1 = '0' && ('1' ≤ c2 && c2 ≤ '9') then some (digitVal c2, rest)
    else if '1' ≤ c1 && c1 ≤ '9' then some (digitVal c1, c2 :: rest)
    else none
  | [c1] => if '1' ≤ c1 && c1 ≤ '9' then some (digitVal c1, []) else none
  | [] => none

def isLeapYear (y : Nat) : Bool := (y % 4 = 0 && y % 100 ≠ 0) || y % 400 = 0

def daysInMonth (y m : Nat) : Nat :=
  if m = 2 then (if isLeapYear y then 29 else 28)
  else if m = 4 || m = 6 || m = 9 || m = 11 then 30
  else 31

/-- Model of `datetime.strptime(s, "%Y-%m-%d")`: exactly four year digits, then
`-`, month, `-`, day, the whole string consumed, and the resulting date
accepted by the `date` constructor (year ≥ 1, day within the month). -/
def parseYMD (s : String) : Option (Nat × Nat × Nat) :=
  match s.data with
  | y1 :: y2 :: y3 :: y4 :: rest =>
    if y1.isDigit && y2.isDigit && y3.isDigit && y4.isDigit then
      let y := 1000 * digitVal y1 + 100 * digitVal y2 + 10 * digitVal y3 + digitVal y4
      match rest with
      | '-' :: rest1 =>
        match parseMonth rest1 with
        | some (m, '-' :: rest2) =>
          match parseDay rest2 with
          | some (d, []) => if 1 ≤ y ∧ d ≤ daysInMonth y m then some (y, m, d) else none
          | _ => none
        | _ => none
      | _ => none
    else none
  | _ => none

/-- Days strictly before January 1 of year `y` (proleptic Gregorian,
as in `date.toordinal`). -/
def daysBeforeYear (y : Nat) : Nat :=
  (y - 1) * 365 + (y - 1) / 4 - (y - 1) / 100 + (y - 1) / 400

def daysBeforeMonth (y m : Nat) : Nat :=
  (List.range (m - 1)).foldl (fun acc i => acc + daysInMonth y (i + 1)) 0

def toOrdinal (y m d : Nat) : Nat := daysBeforeYear y + daysBeforeMonth y m + d

/-- Python `date.weekday()`: 0 = Monday (ordinal 1, i.e. 0001-01-01, is a Monday). -/
def weekdayOf (y m d : Nat) : Nat := (toOrdinal y m d - 1) % 7

def dayName (w : Nat) : String :=
  (["Mon", "Tue", "Wed", "Thu", "Fri", "Sat", "Sun"].getD w "Mon")

def monthName (m : Nat) : String :=
  (["Jan", "Feb", "Mar", "Apr", "May", "Jun", "Jul", "Aug", "Sep", "Oct", "Nov", "Dec"].getD (m - 1) "Jan")

def pad2 (n : Nat) : String := if n < 10 then "0" ++ toString n else toString n

/-- Model of `strftime("%a, %d %b %Y %H:%M:%S %z")` for noon UTC on the given
date (C locale names; glibc's `%Y` prints the year unpadded). -/
def formatNoon (y m d : Nat) : String :=
  dayName (weekdayOf y m d) ++ ", " ++ pad2 d ++ " " ++ monthName m ++ " " ++
    toString y ++ " 12:00:00 +0000"

/-- The per-record `pubDate` computation of `generate_rss_xml`: an absent
or empty date string, and a string `strptime` rejects, both fall back to
the current UTC time `now`; an accepted date renders as noon UTC. -/
def rfc822OfPubDate (now : String) (pubDate : String) : String :=
  if pubDate = "" then now
  else
    match parseYMD pubDate with
    | some (y, m, d) => formatNoon y m d
    | none => now

/-! ## The renderer -/

/-- One `<item>` block of the feed, appended line by line as in the
source (`rss_content += ...`). -/
def renderItem (now : String) (a : Article) : String :=
  "  <item>\n" ++
  ("    <title>" ++ htmlEscape a.title ++ "</title>\n") ++
  ("    <link>" ++ htmlEscape a.link ++ "</link>\n") ++
  ("    <description>" ++ htmlEscape a.description ++ "</description>\n") ++
  ("    <pubDate>" ++ rfc822OfPubDate now a.pubDate ++ "</pubDate>\n") ++
  ("    <guid isPermaLink=\"true\">" ++ htmlEscape a.link ++ "</guid>\n") ++
  "  </item>\n"

/-- The `for article in articles` accumulation loop. -/
def renderItems (now : String) : List Article → String
  | [] => ""
  | a :: as => renderItem now a ++ renderItems now as

/-- Channel prologue up to (and including) the opening `<lastBuildDate>`. -/
def rssMetaA : String :=
  "<?xml version=\"1.0\" encoding=\"UTF-8\" ?>\n" ++
  "<rss version=\"2.0\" xmlns:atom=\"http://www.w3.org/2005/Atom\">\n" ++
  "<channel>\n" ++
  "  <title>Orange News - Commentaries</title>\n" ++
  "  <link>" ++ BASE_URL ++ "/html/topic/index.html</link>\n" ++
  "  <description>Latest commentaries from Orange News HK</description>\n" ++
  "  <language>zh-cn</language>\n" ++
  "  <atom:link href=\"https://totrphbm.manus.space/feed.xml\" rel=\"self\" type=\"application/rss+xml\" />\n" ++
  "  <lastBuildDate>"

def rssMetaB : String := "</lastBuildDate>\n"

def rssFooter : String := "</channel>\n</rss>\n"

/-- The function `generate_rss_xml`, with the render wall-clock time injected as the
already-formatted RFC-822 string `now`. -/
def generate_rss_xml (now : String) (articles : List Article) : String :=
  rssMetaA ++ now ++ rssMetaB ++ renderItems now articles ++ rssFooter

/-! ## Substring occurrence counting (used to state document structure) -/

/-- Number of positions of `l` at which `pat` occurs. -/
def countOcc (pat : List Char) : List Char → Nat
  | [] => 0
  | c :: t => (if pat.isPrefixOf (c :: t) then 1 else 0) + countOcc pat t

/-- Number of positions *inside `x`* at which `pat` occurs in `x ++ y`
(occurrences may spill over into `y`). -/
def countOccIn (pat : List Char) : List Char → List Char → Nat
  | [], _ => 0
  | c :: t, y => (if pat.isPrefixOf (c :: t ++ y) then 1 else 0) + countOccIn pat t y

/-! ## Derived notions used in the statements -/

/-- First-occurrence-wins deduplication by `link`: the semantics of the
`if not any(a['link'] == href for a in articles)` guard of the loop. -/
def keepFirstByLink : List String → List Article → List Article
  | _, [] => []
  | seen, a :: as =>
    if seen.contains a.link then keepFirstByLink seen as
    else a :: keepFirstByLink (seen ++ [a.link]) as

/-- The URL stored for an anchor: the raw href when it starts with
`"http"`, otherwise its resolution against the base URL. -/
def resolvedHrefOf (n : HNode) : String :=
  match getAttr n "href" with
  | some h => if strStartsWith h "http" then h else urljoinBase h
  | none => ""

/-- The record the loop body builds for an accepted candidate. -/
def buildArticle (today : String) (n : HNode) (ancs : List HNode) : Article :=
  { title := pyStrip (HNode.getText n)
    link := resolvedHrefOf n
    pubDate := (dateSearch ancs 0).getD today
    description := pyStrip (HNode.getText n) }

/-- An anchor passing all candidate filters of the loop (text non-empty,
not a boilerplate label, trimmed length at least 5, href present,
non-empty and not `"#"`). -/
def linkQualifies (n : HNode) : Bool :=
  !(HNode.getText n == "") &&
  !(boilerplateLabels.contains (pyStrip (HNode.getText n))) &&
  decide (5 ≤ (pyStrip (HNode.getText n)).length) &&
  (match getAttr n "href" with
   | some h => !(h == "") && !(h == "#")
   | none => false)

/-- The qualifying notion exactly as the claim words it: the href only
has to be *present* and different from `"#"` (an empty href counts). -/
def linkQualifiesClaim (n : HNode) : Bool :=
  !(HNode.getText n == "") &&
  !(boilerplateLabels.contains (pyStrip (HNode.getText n))) &&
  decide (5 ≤ (pyStrip (HNode.getText n)).length) &&
  (match getAttr n "href" with
   | some h => !(h == "#")
   | none => false)

/-- The rejection conditions of claim C2: trimmed text shorter than 5,
or a boilerplate label, or href absent or exactly `"#"`. -/
def badCandidate (n : HNode) : Bool :=
  decide ((pyStrip (HNode.getText n)).length < 5) ||
  boilerplateLabels.contains (pyStrip (HNode.getText n)) ||
  (match getAttr n "href" with
   | some h => h == "#"
   | none => true)

/-- Exact `\d{4}-\d{2}-\d{2}` shape (the form of every captured date
and of `strftime('%Y-%m-%d')` output). -/
def isDate10 (s : String) : Bool :=
  match s.data with
  | [a, b, c, d, e, f, g, h, i, j] =>
    a.isDigit && b.isDigit && c.isDigit && d.isDigit && e == '-' &&
    f.isDigit && g.isDigit && h == '-' && i.isDigit && j.isDigit
  | _ => false

/-! ## Concrete probe values used by the witnesses -/

/-- A document whose single anchor has good text but an *empty* href. -/
def emptyHrefDoc : List HNode :=
  [HNode.elem "a" [("href", "")] [HNode.text "Hello World"]]

/-- A document whose single anchor has a schemeless relative href that
happens to start with the four characters `"http"`. -/
def httpPrefixDoc : List HNode :=
  [HNode.elem "a" [("href", "httpnews/a.html")] [HNode.text "Hello World"]]

/-- A boilerplate-label anchor (trimmed text `"登入"`). -/
def boilerAnchor : HNode := HNode.elem "a" [("href", "/x")] [HNode.text "登入"]

/-- An anchor accepted by every filter, nested under a container whose
text carries a date. -/
def goodAnchor : HNode := HNode.elem "a" [("href", "/news/1.html")] [HNode.text "Hello World"]

def goodDoc : List HNode :=
  [HNode.elem "div" [] [HNode.text "2024-03-15 update", goodAnchor]]

def badDateArticle : Article :=
  { title := "Bad date", link := "https://e.example/a", pubDate := "not-a-date",
    description := "Bad date" }

def escapeProbeArticle : Article :=
  { title := "A<B> & \"C\"", link := "https://e.example/x?a=1&b=2", pubDate := "2024-01-02",
    description := "Tom's <news>" }

/-! # Helper lemmas -/

theorem infix_of_decomp {u t v hay : String} (h : hay = u ++ t ++ v) :
    t.data <:+: hay.data :=
  ⟨u.data, v.data, by simp [h, String.data_append]⟩

theorem renderItems_mem_decomp (now : String) (l : List Article) (a : Article) (h : a ∈ l) :
    ∃ u v : List Char, (renderItems now l).data = u ++ (renderItem now a).data ++ v := by
  induction l with
  | nil => cases h
  | cons b bs ih =>
    rcases List.mem_cons.mp h with rfl | hmem
    · exact ⟨[], (renderItems now bs).data, by simp [renderItems, String.data_append]⟩
    · obtain ⟨u, v, hu⟩ := ih hmem
      exact ⟨(renderItem now b).data ++ u, v, by simp [renderItems, String.data_append, hu]⟩

theorem item_infix_output (now : String) (l : List Article) (a : Article) (h : a ∈ l) :
    (renderItem now a).data <:+: (generate_rss_xml now l).data := by
  obtain ⟨u, v, hu⟩ := renderItems_mem_decomp now l a h
  refine ⟨(rssMetaA ++ now ++ rssMetaB).data ++ u, v ++ rssFooter.data, ?_⟩
  simp [generate_rss_xml, String.data_append, hu]

/-! # Claim C6 -/

/-- C6: a record whose `pubDate` parses as `YYYY-MM-DD` renders as noon
UTC on that date in RFC-822 style; in particular `"2024-03-15"` renders
exactly `"Fri, 15 Mar 2024 12:00:00 +0000"`. -/
theorem c6_pubdate_noon (now s : String) (y m d : Nat)
    (h : parseYMD s = some (y, m, d)) :
    rfc822OfPubDate now s = formatNoon y m d ∧
    rfc822OfPubDate now "2024-03-15" = "Fri, 15 Mar 2024 12:00:00 +0000" := by
  constructor
  · have hs : s ≠ "" := by
      intro he
      rw [he] at h
      simp [parseYMD] at h
    simp [rfc822OfPubDate, hs, h]
  · have h15 : parseYMD "2024-03-15" = some (2024, 3, 15) := by decide
    have hne : ("2024-03-15" : String) ≠ "" := by decide
    simp [rfc822OfPubDate, hne, h15]
    decide

theorem c6_pubdate_noon_witness :
    rfc822OfPubDate "Z" "2024-03-15" = formatNoon 2024 3 15 ∧
    rfc822OfPubDate "Z" "2024-03-15" = "Fri, 15 Mar 2024 12:00:00 +0000" :=
  c6_pubdate_noon "Z" "2024-03-15" 2024 3 15 (by decide)

/-! # Claim C7 -/

/-- C7: a record whose stored `pubDate` fails to parse as `YYYY-MM-DD`
does not abort the batch: its timestamp falls back to the current UTC
time string `now`, and its item (like every other record's) is still
rendered inside the full output. -/
theorem c7_bad_date_fallback (now : String) (articles : List Article) (a : Article)
    (hmem : a ∈ articles) (hbad : parseYMD a.pubDate = none) :
    rfc822OfPubDate now a.pubDate = now ∧
    (renderItem now a).data <:+: (generate_rss_xml now articles).data := by
  refine ⟨?_, item_infix_output now articles a hmem⟩
  by_cases he : a.pubDate = "" <;> simp [rfc822OfPubDate, he, hbad]

theorem c7_bad_date_fallback_witness :
    rfc822OfPubDate "Mon, 01 Jan 2024 00:00:00 +0000" badDateArticle.pubDate =
      "Mon, 01 Jan 2024 00:00:00 +0000" ∧
    (renderItem "Mon, 01 Jan 2024 00:00:00 +0000" badDateArticle).data <:+:
      (generate_rss_xml "Mon, 01 Jan 2024 00:00:00 +0000" [badDateArticle]).data :=
  c7_bad_date_fallback _ _ _ (List.mem_singleton.mpr rfl) (by decide)

/-! # Claim C8 -/

theorem unescChars_escChar (l : List Char) : unescChars (l.flatMap escChar) = l := by
  induction l with
  | nil => simp [unescChars]
  | cons c t ih =>
    by_cases h1 : c = '&'
    · subst h1
      simp [escChar, unescChars, ih]
    · by_cases h2 : c = '<'
      · subst h2
        simp [escChar, unescChars, ih]
      · by_cases h3 : c = '>'
        · subst h3
          simp [escChar, unescChars, ih]
        · by_cases h4 : c = '"'
          · subst h4
            simp [escChar, unescChars, ih]
          · by_cases h5 : c = '\''
            · subst h5
              simp [escChar, unescChars, ih]
            · simp [escChar, h1, h2, h3, h4, h5, unescChars, ih]

theorem htmlUnescape_htmlEscape (s : String) : htmlUnescape (htmlEscape s) = s := by
  cases s with
  | mk l => simp [htmlUnescape, htmlEscape, unescChars_escChar]

theorem renderItem_title_decomp (now : String) (a : Article) :
    renderItem now a =
      "  <item>\n" ++ ("    <title>" ++ htmlEscape a.title ++ "</title>\n") ++
      (("    <link>" ++ htmlEscape a.link ++ "</link>\n") ++
       ("    <description>" ++ htmlEscape a.description ++ "</description>\n") ++
       ("    <pubDate>" ++ rfc822OfPubDate now a.pubDate ++ "</pubDate>\n") ++
       ("    <guid isPermaLink=\"true\">" ++ htmlEscape a.link ++ "</guid>\n") ++
       "  </item>\n") := by
  simp [renderItem, String.append_assoc]

theorem renderItem_link_decomp (now : String) (a : Article) :
    renderItem now a =
      ("  <item>\n" ++ ("    <title>" ++ htmlEscape a.title ++ "</title>\n")) ++
      ("    <link>" ++ htmlEscape a.link ++ "</link>\n") ++
      (("    <description>" ++ htmlEscape a.description ++ "</description>\n") ++
       ("    <pubDate>" ++ rfc822OfPubDate now a.pubDate ++ "</pubDate>\n") ++
       ("    <guid isPermaLink=\"true\">" ++ htmlEscape a.link ++ "</guid>\n") ++
       "  </item>\n") := by
  simp [renderItem, String.append_assoc]

theorem renderItem_description_decomp (now : String) (a : Article) :
    renderItem now a =
      ("  <item>\n" ++ ("    <title>" ++ htmlEscape a.title ++ "</title>\n") ++
       ("    <link>" ++ htmlEscape a.link ++ "</link>\n")) ++
      ("    <description>" ++ htmlEscape a.description ++ "</description>\n") ++
      (("    <pubDate>" ++ rfc822OfPubDate now a.pubDate ++ "</pubDate>\n") ++
       ("    <guid isPermaLink=\"true\">" ++ htmlEscape a.link ++ "</guid>\n") ++
       "  </item>\n") := by
  simp [renderItem, String.append_assoc]

/-- C8: every record's title, link and description are embedded in the
output only after markup-entity escaping (shown by locating the whole
escaped element inside the document), and unescaping recovers the
original field value exactly. -/
theorem c8_escaping_roundtrip (now : String) (articles : List Article) (a : Article)
    (hmem : a ∈ articles) :
    ("    <title>" ++ htmlEscape a.title ++ "</title>\n").data <:+:
        (generate_rss_xml now articles).data ∧
    ("    <link>" ++ htmlEscape a.link ++ "</link>\n").data <:+:
        (generate_rss_xml now articles).data ∧
    ("    <description>" ++ htmlEscape a.description ++ "</description>\n").data <:+:
        (generate_rss_xml now articles).data ∧
    htmlUnescape (htmlEscape a.title) = a.title ∧
    htmlUnescape (htmlEscape a.link) = a.link ∧
    htmlUnescape (htmlEscape a.description) = a.description := by
  have hout := item_infix_output now articles a hmem
  refine ⟨?_, ?_, ?_, htmlUnescape_htmlEscape _, htmlUnescape_htmlEscape _,
    htmlUnescape_htmlEscape _⟩
  · exact (infix_of_decomp (renderItem_title_decomp now a)).trans hout
  · exact (infix_of_decomp (renderItem_link_decomp now a)).trans hout
  · exact (infix_of_decomp (renderItem_description_decomp now a)).trans hout

theorem c8_escaping_roundtrip_witness :
    ("    <title>" ++ htmlEscape escapeProbeArticle.title ++ "</title>\n").data <:+:
        (generate_rss_xml "NOW" [escapeProbeArticle]).data ∧
    ("    <link>" ++ htmlEscape escapeProbeArticle.link ++ "</link>\n").data <:+:
        (generate_rss_xml "NOW" [escapeProbeArticle]).data ∧
    ("    <description>" ++ htmlEscape escapeProbeArticle.description ++ "</description>\n").data <:+:
        (generate_rss_xml "NOW" [escapeProbeArticle]).data ∧
    htmlUnescape (htmlEscape escapeProbeArticle.title) = escapeProbeArticle.title ∧
    htmlUnescape (htmlEscape escapeProbeArticle.link) = escapeProbeArticle.link ∧
    htmlUnescape (htmlEscape escapeProbeArticle.description) = escapeProbeArticle.description :=
  c8_escaping_roundtrip "NOW" [escapeProbeArticle] escapeProbeArticle
    (List.mem_singleton.mpr rfl)

/-! # Claim C9 -/

theorem countOcc_append (pat x y : List Char) :
    countOcc pat (x ++ y) = countOccIn pat x y + countOcc pat y := by
  induction x with
  | nil => simp [countOccIn]
  | cons c t ih => simp [countOcc, countOccIn, ih]; omega

theorem isPrefixOf_append_of_le (pat l y : List Char) (h : pat.length ≤ l.length) :
    pat.isPrefixOf (l ++ y) = pat.isPrefixOf l := by
  induction pat generalizing l with
  | nil => simp [List.isPrefixOf]
  | cons p ps ih =>
    cases l with
    | nil => simp at h
    | cons c t =>
      simp only [List.cons_append, List.isPrefixOf, List.append_eq]
      rw [ih t (by simpa using h)]

theorem countOccIn_nil_eq_countOcc (pat x : List Char) :
    countOccIn pat x [] = countOcc pat x := by
  induction x with
  | nil => simp [countOccIn, countOcc]
  | cons c t ih => simp [countOccIn, countOcc, ih]

/-- If none of the last `prest.length` characters of `x` equals the first
pattern character, no occurrence of the pattern spills from `x` into what
follows it, so the count inside `x` does not depend on the continuation. -/
theorem countOccIn_irrel (p0 : Char) (prest x y z : List Char)
    (h : ∀ c ∈ x.reverse.take prest.length, c ≠ p0) :
    countOccIn (p0 :: prest) x y = countOccIn (p0 :: prest) x z := by
  induction x with
  | nil => simp [countOccIn]
  | cons c t ih =>
    have ht : ∀ d ∈ t.reverse.take prest.length, d ≠ p0 := by
      intro d hd
      apply h
      rw [List.reverse_cons, List.take_append_eq_append_take]
      exact List.mem_append_left _ hd
    by_cases hlen : (p0 :: prest).length ≤ (c :: t).length
    · have hy : (p0 :: prest).isPrefixOf (c :: (t ++ y)) = (p0 :: prest).isPrefixOf (c :: t) := by
        rw [show c :: (t ++ y) = (c :: t) ++ y from rfl, isPrefixOf_append_of_le _ _ _ hlen]
      have hz : (p0 :: prest).isPrefixOf (c :: (t ++ z)) = (p0 :: prest).isPrefixOf (c :: t) := by
        rw [show c :: (t ++ z) = (c :: t) ++ z from rfl, isPrefixOf_append_of_le _ _ _ hlen]
      simp only [countOccIn, List.cons_append, hy, hz, ih ht]
    · have hc : c ≠ p0 := by
        apply h
        rw [List.reverse_cons, List.take_append_eq_append_take]
        refine List.mem_append_right _ ?_
        have h1 : t.length < prest.length := by
          simp only [List.length_cons] at hlen; omega
        have h2 : ([c].take (prest.length - t.reverse.length)) = [c] := by
          apply List.take_of_length_le
          simp; omega
        rw [h2]; simp
      have hpc : (p0 == c) = false := by
        simp only [beq_eq_false_iff_ne]
        exact fun hh => hc hh.symm
      simp only [countOccIn, List.cons_append, List.isPrefixOf, hpc, Bool.false_and]
      simp [ih ht]

theorem countOccIn_no_head (p0 : Char) (prest y z : List Char)
    (h : ∀ c ∈ y, c ≠ p0) : countOccIn (p0 :: prest) y z = 0 := by
  induction y with
  | nil => simp [countOccIn]
  | cons c t ih =>
    have hc := h c (by simp)
    have hpc : (p0 == c) = false := by
      simp only [beq_eq_false_iff_ne]
      exact fun hh => hc hh.symm
    simp only [countOccIn, List.cons_append, List.isPrefixOf, hpc, Bool.false_and]
    simp [ih (fun d hd => h d (by simp [hd]))]

set_option maxRecDepth 40000 in
/-- C9: on the empty record list the renderer still emits the complete
feed skeleton — the output is exactly prologue ++ build date ++ epilogue,
the prologue starts with the XML declaration and contains (once each) the
versioned rss root with the atom namespace and every fixed channel
metadata element, and the document contains zero `<item>` blocks. -/
theorem c9_empty_feed_structure (now : String) :
    generate_rss_xml now [] = rssMetaA ++ now ++ rssMetaB ++ rssFooter ∧
    strStartsWith rssMetaA "<?xml version=\"1.0\" encoding=\"UTF-8\" ?>\n" = true ∧
    countOcc "<rss version=\"2.0\" xmlns:atom=\"http://www.w3.org/2005/Atom\">".data rssMetaA.data = 1 ∧
    countOcc "<channel>".data rssMetaA.data = 1 ∧
    countOcc "</channel>".data rssFooter.data = 1 ∧
    countOcc "</rss>".data rssFooter.data = 1 ∧
    countOcc "<title>Orange News - Commentaries</title>".data rssMetaA.data = 1 ∧
    countOcc "<link>https://www.orangenews.hk/html/topic/index.html</link>".data rssMetaA.data = 1 ∧
    countOcc "<description>Latest commentaries from Orange News HK</description>".data rssMetaA.data = 1 ∧
    countOcc "<language>zh-cn</language>".data rssMetaA.data = 1 ∧
    ((∀ c ∈ now.data, c ≠ '<') →
      countOcc "<item>".data (generate_rss_xml now []).data = 0) := by
  refine ⟨?_, by decide, by decide, by decide, by decide, by decide, by decide, by decide,
    by decide, by decide, ?_⟩
  · simp [generate_rss_xml, renderItems]
  · intro h
    have hdata : (generate_rss_xml now []).data =
        rssMetaA.data ++ (now.data ++ (rssMetaB.data ++ rssFooter.data)) := by
      simp [generate_rss_xml, renderItems, String.data_append]
    have hpat : ("<item>" : String).data = '<' :: ("item>" : String).data := rfl
    rw [hdata, hpat, countOcc_append,
        countOccIn_irrel '<' ("item>" : String).data rssMetaA.data _ [] (by decide),
        countOccIn_nil_eq_countOcc, countOcc_append,
        countOccIn_no_head '<' ("item>" : String).data now.data _ h]
    decide

set_option maxRecDepth 40000 in
theorem c9_empty_feed_structure_witness :
    generate_rss_xml "Thu, 01 Jan 1970 00:00:00 +0000" [] =
      rssMetaA ++ "Thu, 01 Jan 1970 00:00:00 +0000" ++ rssMetaB ++ rssFooter ∧
    countOcc "<item>".data (generate_rss_xml "Thu, 01 Jan 1970 00:00:00 +0000" []).data = 0 :=
  ⟨(c9_empty_feed_structure "Thu, 01 Jan 1970 00:00:00 +0000").1,
   (c9_empty_feed_structure "Thu, 01 Jan 1970 00:00:00 +0000").2.2.2.2.2.2.2.2.2.2 (by decide)⟩

/-! # Extractor helper lemmas -/

theorem head_h_ne (s : String) (h : s.data.headD ' ' = 'h') : s ≠ "" ∧ s ≠ "#" := by
  constructor <;> intro hEq <;> subst hEq <;> exact absurd h (by decide)

theorem resolveNoScheme_ne (u : List Char) :
    resolveNoScheme u ≠ "" ∧ resolveNoScheme u ≠ "#" := by
  have hd : "https:".data = 'h' :: "ttps:".data := rfl
  have hB : BASE_URL.data = 'h' :: "ttps://www.orangenews.hk".data := rfl
  unfold resolveNoScheme
  rcases hsp : splitAtChar '#' u with ⟨pre, frag⟩
  dsimp only
  rcases hsq : splitAtChar '?' pre with ⟨rest, query⟩
  dsimp only
  split
  · exact head_h_ne _ (by simp [hd])
  all_goals split
  all_goals try split
  all_goals exact head_h_ne _ (by simp [hB])

theorem urljoinBase_ne (h0 : String) (hne : h0 ≠ "") (hns : h0 ≠ "#") :
    urljoinBase h0 ≠ "" ∧ urljoinBase h0 ≠ "#" := by
  unfold urljoinBase
  rw [if_neg hne]
  split
  · split
    · exact resolveNoScheme_ne _
    · exact ⟨hne, hns⟩
  · exact resolveNoScheme_ne _

theorem matchDateAt_isDate10 (l : List Char) (s : String) (h : matchDateAt l = some s) :
    isDate10 s = true := by
  unfold matchDateAt at h
  split at h
  · split at h
    · injection h with h
      subst h
      simp only [isDate10]
      assumption
    · exact absurd h (by simp)
  · exact absurd h (by simp)

theorem isDate10_ne_empty (s : String) (h : isDate10 s = true) : s ≠ "" := by
  intro he
  rw [he] at h
  exact absurd h (by decide)

theorem findDate_isDate10 (l : List Char) (s : String) (h : findDate l = some s) :
    isDate10 s = true := by
  induction l with
  | nil => simp [findDate] at h
  | cons c t ih =>
    rw [findDate] at h
    cases hm : matchDateAt (c :: t) with
    | some d =>
      rw [hm] at h
      injection h with h
      subst h
      exact matchDateAt_isDate10 _ _ hm
    | none =>
      rw [hm] at h
      exact ih h

theorem dateSearch_isDate10 (ancs : List HNode) (k : Nat) (s : String)
    (h : dateSearch ancs k = some s) : isDate10 s = true := by
  induction ancs generalizing k with
  | nil => simp [dateSearch] at h
  | cons p ps ih =>
    rw [dateSearch] at h
    by_cases hk : k < 5
    · rw [if_pos hk] at h
      cases hf : findDate (HNode.getText p).data with
      | some d =>
        rw [hf] at h
        injection h with h
        subst h
        exact findDate_isDate10 _ _ hf
      | none =>
        rw [hf] at h
        exact ih (k + 1) h
    · rw [if_neg hk] at h
      exact absurd h (by simp)

/-- Inversion of an accepted candidate: every fact the loop body
guarantees about the record it appends. -/
theorem processLink_some (today : String) (cand : HNode × List HNode) (a : Article)
    (h : processLink today cand = some a) :
    ∃ href0, getAttr cand.1 "href" = some href0 ∧ href0 ≠ "" ∧ href0 ≠ "#" ∧
      HNode.getText cand.1 ≠ "" ∧
      a.title = pyStrip (HNode.getText cand.1) ∧
      boilerplateLabels.contains a.title = false ∧
      5 ≤ a.title.length ∧
      a.link = (if strStartsWith href0 "http" then href0 else urljoinBase href0) ∧
      a.pubDate = (dateSearch cand.2 0).getD today ∧
      a.description = a.title := by
  unfold processLink at h
  split at h
  · exact absurd h (by simp)
  · rename_i x href0 hattr
    dsimp only at h
    split at h
    · exact absurd h (by simp)
    · rename_i hg1
      rw [not_or] at hg1
      split at h
      · exact absurd h (by simp)
      · rename_i hg2
        split at h
        · exact absurd h (by simp)
        · rename_i hg3
          rw [not_or] at hg3
          split at h
          · rename_i hst
            split at h
            · injection h with h
              subst h
              refine ⟨href0, hattr, hg3.1, hg3.2, hg1.1, rfl, ?_, by dsimp only; omega, ?_, rfl, rfl⟩
              · simpa using hg1.2
              · rw [if_pos hst]
            · exact absurd h (by simp)
          · rename_i hst
            split at h
            · injection h with h
              subst h
              refine ⟨href0, hattr, hg3.1, hg3.2, hg1.1, rfl, ?_, by dsimp only; omega, ?_, rfl, rfl⟩
              · simpa using hg1.2
              · rw [if_neg hst]
            · exact absurd h (by simp)

theorem contains_eq_false_of_not_mem {x : String} {l : List String} (h : x ∉ l) :
    l.contains x = false := by
  by_contra hc
  rw [Bool.not_eq_false] at hc
  exact h (by simpa using hc)

/-- The accumulation loop is exactly first-occurrence-wins
deduplication of the per-candidate results, relative to the links
already accepted. -/
theorem extractLoop_eq_keepFirst (today : String) (links : List (HNode × List HNode))
    (acc : List Article) :
    extractLoop today links acc =
      acc ++ keepFirstByLink (acc.map (fun a => a.link)) (links.filterMap (processLink today)) := by
  induction links generalizing acc with
  | nil => simp [extractLoop, keepFirstByLink]
  | cons l ls ih =>
    rw [extractLoop]
    cases hp : processLink today l with
    | none =>
      rw [List.filterMap_cons_none hp]
      exact ih acc
    | some a =>
      rw [List.filterMap_cons_some hp]
      dsimp only
      by_cases hdup : acc.any (fun b => b.link == a.link)
      · have hmem : a.link ∈ acc.map (fun b => b.link) := by
          simp only [List.any_eq_true] at hdup
          obtain ⟨b, hb, hbeq⟩ := hdup
          exact List.mem_map.mpr ⟨b, hb, by simpa using hbeq⟩
        rw [if_pos hdup, keepFirstByLink, if_pos (by simpa using hmem)]
        exact ih acc
      · have hmem : a.link ∉ acc.map (fun b => b.link) := by
          intro hmem
          apply hdup
          obtain ⟨b, hb, hbeq⟩ := List.mem_map.mp hmem
          exact List.any_eq_true.mpr ⟨b, hb, by simpa using hbeq⟩
        rw [if_neg hdup, keepFirstByLink,
          if_neg (by rw [contains_eq_false_of_not_mem hmem]; simp), ih]
        simp [List.append_assoc]

theorem keepFirstByLink_not_seen_and_nodup (l : List Article) :
    ∀ seen : List String,
      (∀ a ∈ keepFirstByLink seen l, a.link ∉ seen) ∧
      ((keepFirstByLink seen l).map (fun a => a.link)).Nodup := by
  induction l with
  | nil => intro seen; simp [keepFirstByLink]
  | cons a as ih =>
    intro seen
    by_cases hc : seen.contains a.link = true
    · rw [keepFirstByLink, if_pos hc]
      exact ih seen
    · rw [keepFirstByLink, if_neg hc]
      have hseen : a.link ∉ seen := fun hmem => hc (by simpa using hmem)
      have htail := ih (seen ++ [a.link])
      constructor
      · intro b hb
        rcases List.mem_cons.mp hb with rfl | hbtail
        · exact hseen
        · intro hbs
          exact htail.1 b hbtail (List.mem_append_left _ hbs)
      · rw [List.map_cons, List.nodup_cons]
        refine ⟨?_, htail.2⟩
        intro hmem
        obtain ⟨b, hb, hbl⟩ := List.mem_map.mp hmem
        exact htail.1 b hb (by rw [hbl]; simp)

theorem keepFirstByLink_subset (l : List Article) :
    ∀ (seen : List String) (a : Article), a ∈ keepFirstByLink seen l → a ∈ l := by
  induction l with
  | nil => intro seen a h; simp [keepFirstByLink] at h
  | cons b bs ih =>
    intro seen a h
    rw [keepFirstByLink] at h
    by_cases hc : seen.contains b.link = true
    · rw [if_pos hc] at h
      exact List.mem_cons_of_mem _ (ih seen a h)
    · rw [if_neg hc] at h
      rcases List.mem_cons.mp h with rfl | htail
      · simp
      · exact List.mem_cons_of_mem _ (ih _ a htail)

theorem keepFirstByLink_eq_self (l : List Article) :
    ∀ seen : List String,
      (l.map (fun a => a.link)).Nodup →
      (∀ a ∈ l, a.link ∉ seen) →
      keepFirstByLink seen l = l := by
  induction l with
  | nil => intro seen _ _; rfl
  | cons a as ih =>
    intro seen hnd hseen
    rw [keepFirstByLink, if_neg (by
      rw [contains_eq_false_of_not_mem (hseen a (by simp))]; simp)]
    congr 1
    rw [List.map_cons, List.nodup_cons] at hnd
    refine ih _ hnd.2 ?_
    intro b hb
    rw [List.mem_append]
    rintro (hbs | hba)
    · exact hseen b (List.mem_cons_of_mem _ hb) hbs
    · apply hnd.1
      rw [List.mem_singleton] at hba
      rw [← hba]
      exact List.mem_map.mpr ⟨b, hb, rfl⟩

theorem not_mem_of_contains_eq_false {x : String} {l : List String}
    (h : l.contains x = false) : x ∉ l := by
  intro hm
  have hc : l.contains x = true := by simpa using hm
  rw [hc] at h
  exact absurd h (by simp)

/-- For a run date that is not the empty string, the loop body accepts a
candidate exactly when it passes the four filters, and then builds
precisely `buildArticle`. -/
theorem processLink_eq_ite (today : String) (htoday : today ≠ "") (cand : HNode × List HNode) :
    processLink today cand =
      if linkQualifies cand.1 then some (buildArticle today cand.1 cand.2) else none := by
  by_cases hq : linkQualifies cand.1 = true
  · rw [if_pos hq]
    unfold linkQualifies at hq
    simp only [Bool.and_eq_true, Bool.not_eq_true', beq_eq_false_iff_ne, decide_eq_true_eq] at hq
    obtain ⟨⟨⟨htxt, hbp⟩, hlen⟩, hhref⟩ := hq
    cases hattr : getAttr cand.1 "href" with
    | none => rw [hattr] at hhref; exact absurd hhref (by simp)
    | some href0 =>
      rw [hattr] at hhref
      simp only [Bool.and_eq_true, Bool.not_eq_true', beq_eq_false_iff_ne] at hhref
      have hdate : (dateSearch cand.2 0).getD today ≠ "" := by
        cases hds : dateSearch cand.2 0 with
        | none => simpa using htoday
        | some d =>
          simpa using isDate10_ne_empty d (dateSearch_isDate10 cand.2 0 d hds)
      have hlink : (if strStartsWith href0 "http" then href0 else urljoinBase href0) ≠ "" := by
        split
        · exact hhref.1
        · exact (urljoinBase_ne href0 hhref.1 hhref.2).1
      unfold processLink
      rw [if_neg (by rw [not_or]; exact ⟨htxt, by rw [hbp]; simp⟩)]
      dsimp only
      rw [if_neg (by omega), hattr]
      dsimp only
      rw [if_neg (by rw [not_or]; exact ⟨hhref.1, hhref.2⟩)]
      rw [if_pos ⟨by intro he; rw [he] at hlen; simp at hlen, hlink, hdate⟩]
      simp only [buildArticle, resolvedHrefOf, hattr]
  · rw [if_neg hq]
    cases hp : processLink today cand with
    | none => rfl
    | some a =>
      exfalso
      apply hq
      obtain ⟨href0, hattr, hne, hns, htxt, htitle, hbp, hlen, _, _, _⟩ :=
        processLink_some today cand a hp
      unfold linkQualifies
      simp only [Bool.and_eq_true, Bool.not_eq_true', beq_eq_false_iff_ne, decide_eq_true_eq]
      rw [htitle] at hbp hlen
      refine ⟨⟨⟨htxt, hbp⟩, hlen⟩, ?_⟩
      rw [hattr]
      simp only [Bool.and_eq_true, Bool.not_eq_true', beq_eq_false_iff_ne]
      exact ⟨hne, hns⟩

theorem filterMap_processLink_eq (today : String) (htoday : today ≠ "")
    (links : List (HNode × List HNode)) :
    links.filterMap (processLink today) =
      (links.filter (fun l => linkQualifies l.1)).map
        (fun l => buildArticle today l.1 l.2) := by
  induction links with
  | nil => simp
  | cons l ls ih =>
    rw [List.filterMap_cons, processLink_eq_ite today htoday l]
    by_cases hq : linkQualifies l.1 = true
    · rw [if_pos hq]
      dsimp only
      rw [ih, List.filter_cons, if_pos hq, List.map_cons]
    · rw [if_neg (by simpa using hq)]
      dsimp only
      rw [ih, List.filter_cons, if_neg (by simpa using hq)]

/-! # Claim C3 -/

/-- C3: the extractor's output is exactly first-occurrence-wins
deduplication by resolved `link` of the per-candidate results, and in
particular the `link` field is unique across all returned records. -/
theorem c3_first_wins_unique_links (today : String) (doc : List HNode) :
    extract_articles today doc =
      keepFirstByLink [] ((allLinks doc).filterMap (processLink today)) ∧
    ((extract_articles today doc).map (fun a => a.link)).Nodup := by
  have he : extract_articles today doc =
      keepFirstByLink [] ((allLinks doc).filterMap (processLink today)) := by
    rw [extract_articles, extractLoop_eq_keepFirst]
    simp
  refine ⟨he, ?_⟩
  rw [he]
  exact (keepFirstByLink_not_seen_and_nodup _ []).2

/-! # Claim C1 -/

/-- C1 (amended: a qualifying link must also carry a *non-empty* href —
the script's falsy check `if not href` drops an anchor whose `href`
attribute is present but empty, which the claim as stated counts as
qualifying): for a run date of the proper shape, when the qualifying
links have pairwise-distinct resolved hrefs the extractor returns
exactly one record per qualifying link, in document order. -/
theorem c1_qualifying_count_order (today : String) (doc : List HNode)
    (htoday : today ≠ "")
    (hnd : (((allLinks doc).filter (fun l => linkQualifies l.1)).map
        (fun l => resolvedHrefOf l.1)).Nodup) :
    extract_articles today doc =
      ((allLinks doc).filter (fun l => linkQualifies l.1)).map
        (fun l => buildArticle today l.1 l.2) ∧
    (extract_articles today doc).length =
      ((allLinks doc).filter (fun l => linkQualifies l.1)).length := by
  have hmaps : (((allLinks doc).filter (fun l => linkQualifies l.1)).map
      (fun l => buildArticle today l.1 l.2)).map (fun a => a.link) =
      ((allLinks doc).filter (fun l => linkQualifies l.1)).map
        (fun l => resolvedHrefOf l.1) := by
    rw [List.map_map]
    rfl
  have he : extract_articles today doc =
      ((allLinks doc).filter (fun l => linkQualifies l.1)).map
        (fun l => buildArticle today l.1 l.2) := by
    rw [extract_articles, extractLoop_eq_keepFirst, filterMap_processLink_eq today htoday]
    rw [List.map_nil, List.nil_append]
    apply keepFirstByLink_eq_self
    · rw [hmaps]
      exact hnd
    · simp
  exact ⟨he, by rw [he, List.length_map]⟩

theorem c1_qualifying_count_order_witness :
    extract_articles "2024-01-01" goodDoc =
      ((allLinks goodDoc).filter (fun l => linkQualifies l.1)).map
        (fun l => buildArticle "2024-01-01" l.1 l.2) ∧
    (extract_articles "2024-01-01" goodDoc).length =
      ((allLinks goodDoc).filter (fun l => linkQualifies l.1)).length :=
  c1_qualifying_count_order "2024-01-01" goodDoc (by decide) (by decide)

/-- C1, as stated, is false on the code: an anchor with good text and a
*present but empty* href is qualifying in the claim's sense (href
present and not `"#"`), its resolved href is trivially distinct, yet the
script's falsy test `if not href` drops it, so one qualifying link
yields zero records. -/
theorem c1_counterexample :
    ((allLinks emptyHrefDoc).filter (fun l => linkQualifiesClaim l.1)).length = 1 ∧
    (((allLinks emptyHrefDoc).filter (fun l => linkQualifiesClaim l.1)).map
        (fun l => resolvedHrefOf l.1)).Nodup ∧
    extract_articles "2024-01-01" emptyHrefDoc = [] := by
  exact ⟨by decide, by decide, by decide⟩

/-! # Claim C2 -/

theorem processLink_none_of_bad (today : String) (n : HNode) (ancs : List HNode)
    (hbad : badCandidate n = true) : processLink today (n, ancs) = none := by
  unfold badCandidate at hbad
  simp only [Bool.or_eq_true, decide_eq_true_eq] at hbad
  unfold processLink
  dsimp only
  by_cases h1 : HNode.getText n = "" ∨ boilerplateLabels.contains (pyStrip (HNode.getText n)) = true
  · rw [if_pos h1]
  · rw [if_neg h1]
    rw [not_or] at h1
    by_cases h2 : (pyStrip (HNode.getText n)).length < 5
    · rw [if_pos h2]
    · rw [if_neg h2]
      rcases hbad with (hlen | hcon) | hhref
      · omega
      · exact absurd hcon h1.2
      · revert hhref
        cases getAttr n "href" with
        | none => intro hhref; rfl
        | some h0 =>
          intro hhref
          dsimp only at hhref
          simp only [beq_iff_eq] at hhref
          dsimp only
          rw [if_pos (Or.inr hhref)]

theorem extractLoop_filter_bad (today : String) (links : List (HNode × List HNode))
    (acc : List Article) :
    extractLoop today links acc =
      extractLoop today (links.filter (fun l => !badCandidate l.1)) acc := by
  induction links generalizing acc with
  | nil => rfl
  | cons l ls ih =>
    rcases l with ⟨n, ancs⟩
    rw [List.filter_cons]
    by_cases hb : badCandidate n = true
    · rw [if_neg (by simp [hb]), extractLoop, processLink_none_of_bad today n ancs hb]
      exact ih acc
    · rw [if_pos (by simp at hb ⊢; simp [hb]), extractLoop, extractLoop]
      cases hp : processLink today (n, ancs) with
      | none => exact ih acc
      | some a =>
        dsimp only
        by_cases hdup : acc.any (fun b => b.link == a.link)
        · rw [if_pos hdup, if_pos hdup]
          exact ih acc
        · rw [if_neg hdup, if_neg hdup]
          exact ih (acc ++ [a])

/-- C2: a hyperlink node whose trimmed text is shorter than 5, or is a
boilerplate label, or whose href is absent or exactly `"#"`, contributes
no record: its per-candidate result is `none` and deleting every such
candidate from the anchor list leaves the extractor output unchanged. -/
theorem c2_filtered_never_output (today : String) (doc : List HNode) (n : HNode)
    (ancs : List HNode) (hbad : badCandidate n = true) :
    processLink today (n, ancs) = none ∧
    extract_articles today doc =
      extractLoop today ((allLinks doc).filter (fun l => !badCandidate l.1)) [] :=
  ⟨processLink_none_of_bad today n ancs hbad,
   by rw [extract_articles, extractLoop_filter_bad]⟩

theorem c2_filtered_never_output_witness :
    processLink "2024-01-01" (boilerAnchor, []) = none ∧
    extract_articles "2024-01-01" [boilerAnchor] =
      extractLoop "2024-01-01"
        ((allLinks [boilerAnchor]).filter (fun l => !badCandidate l.1)) [] :=
  c2_filtered_never_output "2024-01-01" [boilerAnchor] boilerAnchor [] (by decide)

/-! # Claim C4 -/

theorem dateSearch_eq_findSome (ancs : List HNode) : ∀ k, k ≤ 5 →
    dateSearch ancs k =
      (ancs.take (5 - k)).findSome? (fun p => findDate (HNode.getText p).data) := by
  induction ancs with
  | nil => intro k hk; simp [dateSearch]
  | cons p ps ih =>
    intro k hk
    by_cases hk5 : k < 5
    · rw [dateSearch, if_pos hk5]
      have h5 : 5 - k = (5 - (k + 1)) + 1 := by omega
      rw [h5, List.take_succ_cons, List.findSome?_cons]
      cases hf : findDate (HNode.getText p).data with
      | some d => rfl
      | none => rw [ih (k + 1) (by omega)]
    · have hk5' : k = 5 := by omega
      subst hk5'
      rw [dateSearch, if_neg hk5]
      simp

/-- C4: the accepted record's `pubDate` is the first `\d{4}-\d{2}-\d{2}`
match found in the full text of one of the first five ancestors (nearest
first), and the run date `today` when none of them matches. -/
theorem c4_date_inference (today : String) (cand : HNode × List HNode) (a : Article)
    (h : processLink today cand = some a) :
    a.pubDate =
      ((cand.2.take 5).findSome? (fun p => findDate (HNode.getText p).data)).getD today := by
  obtain ⟨href0, hattr, hne, hns, htxt, htitle, hbp, hlen, hlink, hpd, hdesc⟩ :=
    processLink_some today cand a h
  rw [hpd, dateSearch_eq_findSome cand.2 0 (by omega)]

theorem c4_date_inference_witness :
    (Article.mk "Hello World" "https://www.orangenews.hk/news/1.html" "2024-01-01"
        "Hello World").pubDate =
      ((([] : List HNode).take 5).findSome?
          (fun p => findDate (HNode.getText p).data)).getD "2024-01-01" :=
  c4_date_inference "2024-01-01" (goodAnchor, []) _ (by decide)

/-! # Claim C5 -/

/-- C5 (amended: the script does not test for a scheme; it tests
`href.startswith('http')` — hrefs starting with the four characters
"http" pass through unchanged, every other href is resolved against the
base URL): the stored link of an accepted candidate. -/
theorem c5_url_normalization (today : String) (cand : HNode × List HNode) (a : Article)
    (href0 : String) (hattr : getAttr cand.1 "href" = some href0)
    (h : processLink today cand = some a) :
    a.link = if strStartsWith href0 "http" then href0 else urljoinBase href0 := by
  obtain ⟨href1, hattr1, hne, hns, htxt, htitle, hbp, hlen, hlink, hpd, hdesc⟩ :=
    processLink_some today cand a h
  rw [hattr] at hattr1
  injection hattr1 with he
  rw [hlink, he]

theorem c5_url_normalization_witness :
    (Article.mk "Hello World" "https://www.orangenews.hk/news/1.html" "2024-01-01"
        "Hello World").link =
      if strStartsWith "/news/1.html" "http" then "/news/1.html"
      else urljoinBase "/news/1.html" :=
  c5_url_normalization "2024-01-01" (goodAnchor, []) _ "/news/1.html" (by decide) (by decide)

/-- C5 as stated is false on the code: `"httpnews/a.html"` has no scheme
(it is not absolute), so the claim requires it to be resolved against
the base URL, but it starts with `"http"`, so the script stores it
unchanged. -/
theorem c5_counterexample :
    hasScheme "httpnews/a.html" = false ∧
    urljoinBase "httpnews/a.html" = "https://www.orangenews.hk/httpnews/a.html" ∧
    (extract_articles "2024-01-01" httpPrefixDoc).map (fun a => a.link) =
      ["httpnews/a.html"] :=
  ⟨by decide, by decide, by decide⟩

/-! # Claim C10 -/

theorem dropWhile_idem (p : Char → Bool) (l : List Char) :
    (l.dropWhile p).dropWhile p = l.dropWhile p := by
  induction l with
  | nil => rfl
  | cons c t ih =>
    rw [List.dropWhile_cons]
    by_cases hc : p c = true
    · rw [if_pos hc]
      exact ih
    · rw [if_neg hc, List.dropWhile_cons, if_neg hc]

theorem pyStripL_idem (l : List Char) : pyStripL (pyStripL l) = pyStripL l := by
  unfold pyStripL
  generalize hA : l.dropWhile pyIsSpace = A
  have hhead : ∀ b bs, (A.reverse.dropWhile pyIsSpace).reverse = b :: bs →
      pyIsSpace b = false := by
    intro b bs hB
    have hsuf : A.reverse.dropWhile pyIsSpace <:+ A.reverse := List.dropWhile_suffix _
    have hpre : (A.reverse.dropWhile pyIsSpace).reverse <+: A := by
      have := List.reverse_prefix.mpr hsuf
      simpa using this
    rw [hB] at hpre
    obtain ⟨t, ht⟩ := hpre
    have hhd := List.head?_dropWhile_not pyIsSpace l
    rw [hA, ← ht] at hhd
    simpa using hhd
  have hdropB : ((A.reverse.dropWhile pyIsSpace).reverse).dropWhile pyIsSpace =
      (A.reverse.dropWhile pyIsSpace).reverse := by
    cases hBc : (A.reverse.dropWhile pyIsSpace).reverse with
    | nil => rfl
    | cons b bs =>
      rw [List.dropWhile_cons, if_neg (by rw [hhead b bs hBc]; simp)]
  rw [hdropB, List.reverse_reverse, dropWhile_idem]

theorem pyStrip_idem (s : String) : pyStrip (pyStrip s) = pyStrip s :=
  congrArg String.mk (pyStripL_idem s.data)

/-- C10: every record the extractor returns (for a run date of the
strftime date shape) has a whitespace-trimmed title of length at least
5, a link that is neither empty nor the placeholder `"#"`, a description
equal to the title, and a `pubDate` matching `\d{4}-\d{2}-\d{2}` — in
particular `pubDate` is never the empty string, so the renderer's
missing-`pubDate` fallback is unreachable on extractor output. -/
theorem c10_record_invariants (today : String) (doc : List HNode) (a : Article)
    (htoday : isDate10 today = true) (hmem : a ∈ extract_articles today doc) :
    pyStrip a.title = a.title ∧ 5 ≤ a.title.length ∧
    a.link ≠ "" ∧ a.link ≠ "#" ∧
    a.description = a.title ∧
    isDate10 a.pubDate = true ∧ a.pubDate ≠ "" := by
  rw [extract_articles, extractLoop_eq_keepFirst, List.map_nil, List.nil_append] at hmem
  have hmem' := keepFirstByLink_subset _ [] a hmem
  obtain ⟨cand, hcand, hsome⟩ := List.mem_filterMap.mp hmem'
  obtain ⟨href0, hattr, hne, hns, htxt, htitle, hbp, hlen, hlink, hpd, hdesc⟩ :=
    processLink_some today cand a hsome
  have hpdate : isDate10 a.pubDate = true := by
    rw [hpd]
    cases hds : dateSearch cand.2 0 with
    | none => simpa using htoday
    | some d => simpa using dateSearch_isDate10 cand.2 0 d hds
  refine ⟨?_, hlen, ?_, ?_, hdesc, hpdate, isDate10_ne_empty _ hpdate⟩
  · rw [htitle, pyStrip_idem]
  · rw [hlink]
    split
    · exact hne
    · exact (urljoinBase_ne href0 hne hns).1
  · rw [hlink]
    split
    · exact hns
    · exact (urljoinBase_ne href0 hne hns).2

theorem c10_record_invariants_witness :
    pyStrip (Article.mk "Hello World" "https://www.orangenews.hk/news/1.html" "2024-03-15"
        "Hello World").title =
      (Article.mk "Hello World" "https://www.orangenews.hk/news/1.html" "2024-03-15"
        "Hello World").title ∧
    5 ≤ (Article.mk "Hello World" "https://www.orangenews.hk/news/1.html" "2024-03-15"
        "Hello World").title.length ∧
    (Article.mk "Hello World" "https://www.orangenews.hk/news/1.html" "2024-03-15"
        "Hello World").link ≠ "" ∧
    (Article.mk "Hello World" "https://www.orangenews.hk/news/1.html" "2024-03-15"
        "Hello World").link ≠ "#" ∧
    (Article.mk "Hello World" "https://www.orangenews.hk/news/1.html" "2024-03-15"
        "Hello World").description =
      (Article.mk "Hello World" "https://www.orangenews.hk/news/1.html" "2024-03-15"
        "Hello World").title ∧
    isDate10 (Article.mk "Hello World" "https://www.orangenews.hk/news/1.html" "2024-03-15"
        "Hello World").pubDate = true ∧
    (Article.mk "Hello World" "https://www.orangenews.hk/news/1.html" "2024-03-15"
        "Hello World").pubDate ≠ "" :=
  c10_record_invariants "2024-01-01" goodDoc _ (by decide) (by decide)
